import Mathlib

/-!
Shallow embedding of `mdbook-compile-output` (`src/main.rs`), an mdBook
preprocessor that replaces marker lines of the form
`\x7b\x7b#compile_output: <step>\x7d\x7d` in chapter content with the captured
output of an external `cargo test --release` run.

Strings are modelled as `List Char`.  The external subprocess is modelled by a
`Runner` function from the working-directory path to an optional
`CommandResult`; `none` models a spawn failure (in Rust, `.expect` panics and
aborts the whole run), which is threaded through the embedding as `Option`.
-/

set_option autoImplicit false

namespace MdbookCompileOutput

/-- Rust `char::is_whitespace`: the Unicode White_Space property. -/
def rustWS (c : Char) : Bool :=
  c = ' ' || c = '\t' || c = '\n' || c = '\r' || c = '\x0b' || c = '\x0c' ||
  c = '\u0085' || c = '\u00a0' || c = '\u1680' ||
  ('\u2000' ≤ c && c ≤ '\u200a') ||
  c = '\u2028' || c = '\u2029' || c = '\u202f' || c = '\u205f' || c = '\u3000'

/-- Rust `str::trim_start`. -/
def trimStart (l : List Char) : List Char := l.dropWhile rustWS

/-- Rust `str::trim_end`. -/
def trimEnd (l : List Char) : List Char := (l.reverse.dropWhile rustWS).reverse

/-- Rust `str::trim` (trim whitespace from both ends). -/
def trim (l : List Char) : List Char := trimEnd (trimStart l)

/-- Rust `str::strip_prefix`: remainder after the prefix, when present. -/
def stripPre (pre l : List Char) : Option (List Char) :=
  if pre.isPrefixOf l then some (l.drop pre.length) else none

/-- Rust `str::strip_suffix`: remainder before the suffix, when present. -/
def stripSuf (suf l : List Char) : Option (List Char) :=
  if suf.isSuffixOf l then some (l.take (l.length - suf.length)) else none

/-- The literal marker opener from `extract_step_name`. -/
def markerPre : List Char := "\x7b\x7b#compile_output:".data

/-- The literal marker closer from `extract_step_name`. -/
def markerSuf : List Char := "\x7d\x7d".data

/-- Function `extract_step_name` from `main.rs`: if the line, after leading-whitespace
trimming, starts with the marker opener, strip it, strip the closing braces,
and return the enclosed name trimmed of surrounding whitespace. -/
def extract_step_name (line : List Char) : Option (List Char) :=
  let t := trimStart line
  if markerPre.isPrefixOf t then
    match stripPre markerPre t with
    | none => none
    | some after =>
      match stripSuf markerSuf after with
      | none => none
      | some step => some (trim step)
  else
    none

/-- Exit status and captured streams of one subprocess invocation
(Rust `std::process::Output`, streams lossy-decoded to text). -/
structure CommandResult where
  success : Bool
  stdout : List Char
  stderr : List Char
deriving DecidableEq

/-- Model of `Command::new("cargo").arg("test").arg("--release")
.current_dir(path).output()`: a function from the working-directory path to
the command result; `none` models a spawn failure (`Err` from `.output()`). -/
def Runner : Type := List Char → Option CommandResult

/-- The working-directory path built in `compile`:
`format!("rust_stages/\x7b\x7d", step.trim())`. -/
def stagePath (step : List Char) : List Char := "rust_stages/".data ++ trim step

/-- The fenced code block built in `compile`:
`format!("(three backticks)text\n\x7b\x7d\n(three backticks)", s)`. -/
def fenceText (s : List Char) : List Char :=
  "```text\n".data ++ s ++ "\n```".data

/-- Function `compile` from `main.rs`: run the external command in `rust_stages/<step>`;
`.expect` on a spawn failure panics (modelled as `none`); otherwise wrap
stdout in a fenced text block on success, stderr on failure. -/
def compile (run : Runner) (step : List Char) : Option (List Char) :=
  match run (stagePath step) with
  | none => none
  | some out =>
    if out.success then
      some (fenceText out.stdout)
    else
      some (fenceText out.stderr)

/-- Rust `str::lines` on `List Char`, via an accumulator holding the characters
of the current line in reverse: lines are split at `\n`; a `\r` immediately before the
`\n` is stripped; the final line ending is optional and a trailing line
terminator does not yield an extra empty line. -/
def rustLinesAux (acc : List Char) : List Char → List (List Char)
  | [] => if acc.isEmpty then [] else [acc.reverse]
  | c :: rest =>
    if c = '\n' then
      (match acc with
       | '\r' :: acc2 => acc2.reverse
       | _ => acc.reverse) :: rustLinesAux [] rest
    else
      rustLinesAux (c :: acc) rest

/-- Rust `content.lines()` collected into a list. -/
def rustLines (content : List Char) : List (List Char) := rustLinesAux [] content

/-- The loop body of `process_compile`: walk the lines carrying the `result`
accumulator; a marker line is replaced by the output of `compile`, any other line
is copied, and a single `\n` is pushed after each; a spawn failure (`none`
from `compile`) aborts. -/
def processLines (run : Runner) : List (List Char) → List Char → Option (List Char)
  | [], result => some result
  | line :: rest, result =>
    match extract_step_name line with
    | some step =>
      match compile run step with
      | none => none
      | some c => processLines run rest (result ++ c ++ ['\n'])
    | none => processLines run rest (result ++ line ++ ['\n'])

/-- Function `process_compile` from `main.rs`. -/
def process_compile (run : Runner) (content : List Char) : Option (List Char) :=
  processLines run (rustLines content) []

/-- Type `mdbook::BookItem`: a chapter (with its name, content, optional source
path and nested sub-items), a separator, or a part title. -/
inductive BookItem : Type where
  | chapter (name : List Char) (content : List Char) (path : Option (List Char))
      (subItems : List BookItem)
  | separator : BookItem
  | partTitle (t : List Char) : BookItem

/-- Method `Chapter::is_draft_chapter`: true when the chapter has no source path. -/
def isDraftChapter (path : Option (List Char)) : Bool := path.isNone

mutual

/-- One item of `Book::for_each_mut` combined with the closure from
`CompileOutputPreprocessor::run`: the content of a draft chapter is left
alone, that of any other chapter is replaced by `process_compile`, and the walk
recurses into sub-items; a panic (spawn failure) aborts as `none`. -/
def runItem (run : Runner) : BookItem → Option BookItem
  | .chapter name content path subs =>
    match (if isDraftChapter path then some content else process_compile run content) with
    | none => none
    | some content2 =>
      match runItems run subs with
      | none => none
      | some subs2 => some (.chapter name content2 path subs2)
  | .separator => some .separator
  | .partTitle t => some (.partTitle t)

/-- Walk `for_each_mut` over a list of items, in document order. -/
def runItems (run : Runner) : List BookItem → Option (List BookItem)
  | [] => some []
  | i :: rest =>
    match runItem run i with
    | none => none
    | some i2 =>
      match runItems run rest with
      | none => none
      | some rest2 => some (i2 :: rest2)

end

/-- Type `mdbook::book::Book`: the ordered top-level sections. -/
structure Book : Type where
  sections : List BookItem

/-- Method `CompileOutputPreprocessor::run`: walk every chapter of the book. -/
def runBook (run : Runner) (b : Book) : Option Book :=
  match runItems run b.sections with
  | none => none
  | some secs => some ⟨secs⟩

/-- Observable outcome of one program invocation: the process exit code and
the document tree emitted on standard output (`none` when nothing is). -/
structure ExecResult : Type where
  exitCode : Nat
  emitted : Option Book

/-- Functions `main` and `handle_preprocessing` from `main.rs`: dispatch on the first
command-line argument; `supports` exits 0 emitting nothing, any other
argument exits 1, and with no argument the book parsed from standard input
(modelled as `Option Book`, `none` for a parse failure) is processed and
emitted.  A panic while processing (spawn failure) aborts with the Rust
panic exit code 101 and emits nothing. -/
def mainFn (run : Runner) (args : List (List Char)) (stdinDoc : Option Book) :
    ExecResult :=
  match args with
  | arg :: _ =>
    if arg = ("supports".data : List Char) then ⟨0, none⟩ else ⟨1, none⟩
  | [] =>
    match stdinDoc with
    | none => ⟨1, none⟩
    | some b =>
      match runBook run b with
      | none => ⟨101, none⟩
      | some b2 => ⟨0, some b2⟩

mutual

/-- The contents of the draft chapters of one item, in document order. -/
def draftsItem : BookItem → List (List Char)
  | .chapter _ content path subs =>
    (if isDraftChapter path then [content] else []) ++ draftsItems subs
  | .separator => []
  | .partTitle _ => []

/-- The contents of the draft chapters of a list of items. -/
def draftsItems : List BookItem → List (List Char)
  | [] => []
  | i :: rest => draftsItem i ++ draftsItems rest

end

/-- Join lines putting a single `\n` after each one, including the last. -/
def joinNl : List (List Char) → List Char
  | [] => []
  | l :: ls => l ++ '\n' :: joinNl ls

/-- Modelled from the spec: line-ending normalization of chapter content —
split into lines and re-join with a single `\n` after each line, including
the last. -/
def normalizeContent (content : List Char) : List Char := joinNl (rustLines content)

mutual

/-- Modelled from the spec: the expected result of a marker-free pass — every
content of every non-draft chapter is line-ending normalized, everything else kept. -/
def normItem : BookItem → BookItem
  | .chapter name content path subs =>
    .chapter name (if isDraftChapter path then content else normalizeContent content)
      path (normItems subs)
  | .separator => .separator
  | .partTitle t => .partTitle t

/-- Map `normItem` over a list of items. -/
def normItems : List BookItem → List BookItem
  | [] => []
  | i :: rest => normItem i :: normItems rest

end

/-- True when no line of the content is a marker line. -/
def chapterClean (content : List Char) : Bool :=
  (rustLines content).all fun l => (extract_step_name l).isNone

mutual

/-- True when no chapter in the item contains a marker line. -/
def cleanItem : BookItem → Bool
  | .chapter _ content _ subs => chapterClean content && cleanItems subs
  | .separator => true
  | .partTitle _ => true

/-- Conjunction of `cleanItem` over a list of items. -/
def cleanItems : List BookItem → Bool
  | [] => true
  | i :: rest => cleanItem i && cleanItems rest

end

/-- Runner that fails to spawn for every path (e.g. `cargo` missing). -/
def runNone : Runner := fun _ => none

/-- Runner for which the `demo` step spawns, exits 0, and writes `A` to
standard output and `boom` to standard error. -/
def runOkA : Runner := fun p =>
  if p = ("rust_stages/demo".data : List Char) then
    some ⟨true, ("A".data), ("boom".data)⟩
  else none

/-- Runner for which the `demo` step spawns, exits non-zero, and writes `out`
to standard output and `B` to standard error. -/
def runFailB : Runner := fun p =>
  if p = ("rust_stages/demo".data : List Char) then
    some ⟨false, ("out".data), ("B".data)⟩
  else none

/-- A concrete marker line naming the `demo` step. -/
def markerDemoLine : List Char := "\x7b\x7b#compile_output: demo\x7d\x7d".data

/-- A concrete three-line chapter content whose middle line is the `demo`
marker. -/
def contentDemo : List Char := "x\n\x7b\x7b#compile_output: demo\x7d\x7d\ny".data

theorem processLines_append (run : Runner) (ls1 ls2 : List (List Char))
    (acc : List Char) :
    processLines run (ls1 ++ ls2) acc
      = (processLines run ls1 acc).bind (fun r => processLines run ls2 r) := by
  induction ls1 generalizing acc with
  | nil => simp [processLines]
  | cons line rest ih =>
    simp only [List.cons_append, processLines]
    cases hx : extract_step_name line with
    | none => simp only [hx]; exact ih _
    | some step =>
      simp only [hx]
      cases hc : compile run step with
      | none => simp [hc]
      | some c => simp only [hc]; exact ih _

theorem markerPre_cons : markerPre = '\x7b' :: ("\x7b#compile_output:".data) := rfl

theorem trimStart_append_of_ws (ws l : List Char) (h : ∀ c ∈ ws, rustWS c = true) :
    trimStart (ws ++ l) = trimStart l := by
  induction ws with
  | nil => rfl
  | cons c ws ih =>
    have hc : rustWS c = true := h c (List.mem_cons_self _ _)
    simp only [List.cons_append, trimStart, List.dropWhile_cons, hc, if_true]
    exact ih fun d hd => h d (List.mem_cons_of_mem _ hd)

theorem trimStart_markerPre (l : List Char) :
    trimStart (markerPre ++ l) = markerPre ++ l := by
  have h7 : rustWS '\x7b' = false := by decide
  rw [markerPre_cons]
  simp [trimStart, List.dropWhile_cons, h7]

theorem stripPre_append (pre t : List Char) : stripPre pre (pre ++ t) = some t := by
  have h : pre.isPrefixOf (pre ++ t) = true :=
    List.isPrefixOf_iff_prefix.mpr (List.prefix_append pre t)
  simp [stripPre, h, List.drop_left]

theorem stripSuf_append (suf t : List Char) : stripSuf suf (t ++ suf) = some t := by
  have h : suf.isSuffixOf (t ++ suf) = true :=
    List.isSuffixOf_iff_suffix.mpr (List.suffix_append t suf)
  simp only [stripSuf, h, if_true, List.length_append, Nat.add_sub_cancel]
  exact congrArg some (List.take_left t suf)

/-- A two-line content whose last line is a plain non-marker line. -/
def contentPlain : List Char := "x\nplain".data

/-- A line that starts with the marker opener but lacks the closing braces. -/
def brokenLine : List Char := "\x7b\x7b#compile_output: broken".data

/-- C1: for every step whose external command exits with success status and
writes text `T` to standard output, the Content Rewriter replaces the marker
line with a fenced code block labeled `text` (three backticks plus "text",
then the captured text, then three backticks) containing exactly `T`, with
the captured standard error (`E`, arbitrary here) discarded. -/
theorem c1_success_selects_stdout (run : Runner)
    (content line step T E a : List Char) (lsPre lsPost : List (List Char))
    (hsplit : rustLines content = lsPre ++ line :: lsPost)
    (hline : extract_step_name line = some step)
    (hrun : run (stagePath step) = some ⟨true, T, E⟩)
    (ha : processLines run lsPre [] = some a) :
    compile run step = some (fenceText T) ∧
    process_compile run content
      = processLines run lsPost (a ++ fenceText T ++ ['\n']) := by
  have hc : compile run step = some (fenceText T) := by
    simp [compile, hrun]
  refine ⟨hc, ?_⟩
  unfold process_compile
  rw [hsplit, processLines_append, ha, Option.some_bind]
  simp only [processLines, hline, hc]

/-- Witness for C1 at the `demo` step with stdout `A` and stderr `boom`. -/
theorem c1_witness :
    process_compile runOkA contentDemo
      = processLines runOkA [("y".data)]
          (("x\n".data) ++ fenceText ("A".data) ++ ['\n']) :=
  (c1_success_selects_stdout runOkA contentDemo markerDemoLine ("demo".data)
    ("A".data) ("boom".data) ("x\n".data) [("x".data)] [("y".data)]
    (by decide) (by decide) (by decide) (by decide)).2

/-- C2: for every step whose external command spawns but exits with a
non-success status and writes text `E` to standard error, the marker line is
replaced by a fenced text block containing exactly `E`, the captured standard
output `T` is discarded even if non-empty, and this case does not abort the
run (`compile` returns `some`, and rewriting continues with the remaining
lines). -/
theorem c2_failure_selects_stderr (run : Runner)
    (content line step T E a : List Char) (lsPre lsPost : List (List Char))
    (hsplit : rustLines content = lsPre ++ line :: lsPost)
    (hline : extract_step_name line = some step)
    (hrun : run (stagePath step) = some ⟨false, T, E⟩)
    (ha : processLines run lsPre [] = some a) :
    compile run step = some (fenceText E) ∧
    process_compile run content
      = processLines run lsPost (a ++ fenceText E ++ ['\n']) := by
  have hc : compile run step = some (fenceText E) := by
    simp [compile, hrun]
  refine ⟨hc, ?_⟩
  unfold process_compile
  rw [hsplit, processLines_append, ha, Option.some_bind]
  simp only [processLines, hline, hc]

/-- Witness for C2 at the `demo` step with non-empty stdout `out` and stderr
`B`. -/
theorem c2_witness :
    process_compile runFailB contentDemo
      = processLines runFailB [("y".data)]
          (("x\n".data) ++ fenceText ("B".data) ++ ['\n']) :=
  (c2_failure_selects_stderr runFailB contentDemo markerDemoLine ("demo".data)
    ("out".data) ("B".data) ("x\n".data) [("x".data)] [("y".data)]
    (by decide) (by decide) (by decide) (by decide)).2

/-- C3: every line of the form `\x7b\x7b#compile_output: X\x7d\x7d` — any
amount of leading whitespace before the marker and arbitrary whitespace
around `X` inside the braces — matches, and the extracted step name equals
`X` with surrounding whitespace trimmed. -/
theorem c3_marker_extracts_trimmed_name (ws X : List Char)
    (hws : ∀ c ∈ ws, rustWS c = true) :
    extract_step_name (ws ++ markerPre ++ X ++ markerSuf) = some (trim X) := by
  simp only [List.append_assoc]
  have h1 : trimStart (ws ++ (markerPre ++ (X ++ markerSuf)))
      = markerPre ++ (X ++ markerSuf) := by
    rw [trimStart_append_of_ws _ _ hws, trimStart_markerPre]
  have h2 : markerPre.isPrefixOf (markerPre ++ (X ++ markerSuf)) = true :=
    List.isPrefixOf_iff_prefix.mpr (List.prefix_append _ _)
  simp only [extract_step_name, h1, h2, if_true, stripPre_append, stripSuf_append]

/-- Witness for C3 with two leading spaces and whitespace inside the name. -/
theorem c3_witness :
    extract_step_name (("  ".data) ++ markerPre ++ (" de mo ".data) ++ markerSuf)
      = some (trim (" de mo ".data)) :=
  c3_marker_extracts_trimmed_name ("  ".data) (" de mo ".data) (by decide)

/-- C4: a line the Marker Scanner does not match is reproduced byte-identically
in the Content Rewriter output, followed by a single normalized newline, at
its position in the content — including when it is the last line
(`lsPost = []`). -/
theorem c4_nonmarker_line_copied (run : Runner)
    (content line a : List Char) (lsPre lsPost : List (List Char))
    (hsplit : rustLines content = lsPre ++ line :: lsPost)
    (hnm : extract_step_name line = none)
    (ha : processLines run lsPre [] = some a) :
    process_compile run content = processLines run lsPost (a ++ line ++ ['\n']) := by
  unfold process_compile
  rw [hsplit, processLines_append, ha, Option.some_bind]
  simp only [processLines, hnm]

/-- Witness for C4 on the last line of a chapter, with a runner that could
never be invoked successfully. -/
theorem c4_witness :
    process_compile runNone contentPlain
      = processLines runNone [] (("x\n".data) ++ ("plain".data) ++ ['\n']) :=
  c4_nonmarker_line_copied runNone contentPlain ("plain".data) ("x\n".data)
    [("x".data)] [] (by decide) (by decide) (by decide)

/-- C5: a line that contains the literal marker opener but does not end with
the closing braces is no match for the Marker Scanner, and the Content
Rewriter passes it through unchanged (followed by the normalized newline). -/
theorem c5_prefix_without_suffix_no_match (line : List Char)
    (_hin : markerPre <:+: line)
    (hsuf : markerSuf.isSuffixOf line = false) :
    extract_step_name line = none ∧
    ∀ (run : Runner) (rest : List (List Char)) (acc : List Char),
      processLines run (line :: rest) acc
        = processLines run rest (acc ++ line ++ ['\n']) := by
  have hnone : extract_step_name line = none := by
    unfold extract_step_name
    by_cases hp : markerPre.isPrefixOf (trimStart line) = true
    · have hdrop : (trimStart line).drop markerPre.length <:+ line :=
        (List.drop_suffix _ _).trans (List.dropWhile_suffix _)
      have hs : markerSuf.isSuffixOf ((trimStart line).drop markerPre.length)
          = false := by
        cases hx : markerSuf.isSuffixOf ((trimStart line).drop markerPre.length) with
        | false => rfl
        | true =>
          have h1 : markerSuf <:+ (trimStart line).drop markerPre.length :=
            List.isSuffixOf_iff_suffix.mp hx
          have h2 : markerSuf.isSuffixOf line = true :=
            List.isSuffixOf_iff_suffix.mpr (h1.trans hdrop)
          simp [h2] at hsuf
      simp [hp, stripPre, stripSuf, hs]
    · simp only [Bool.not_eq_true] at hp
      simp [hp]
  refine ⟨hnone, ?_⟩
  intro run rest acc
  simp only [processLines, hnone]

/-- Witness for C5 on a marker line whose closing braces are missing. -/
theorem c5_witness :
    extract_step_name brokenLine = none ∧
    processLines runNone [brokenLine] []
      = processLines runNone [] ([] ++ brokenLine ++ ['\n']) := by
  have h := c5_prefix_without_suffix_no_match brokenLine (by decide) (by decide)
  exact ⟨h.1, h.2 runNone [] []⟩

theorem processLines_clean (run : Runner) (ls : List (List Char)) (acc : List Char)
    (h : ∀ l ∈ ls, extract_step_name l = none) :
    processLines run ls acc = some (acc ++ joinNl ls) := by
  induction ls generalizing acc with
  | nil => simp [processLines, joinNl]
  | cons l ls ih =>
    have hl : extract_step_name l = none := h l (List.mem_cons_self _ _)
    simp only [processLines, hl]
    rw [ih _ fun x hx => h x (List.mem_cons_of_mem _ hx)]
    simp [joinNl]

theorem process_compile_clean (run : Runner) (content : List Char)
    (h : chapterClean content = true) :
    process_compile run content = some (normalizeContent content) := by
  have h2 : ∀ l ∈ rustLines content, extract_step_name l = none := by
    intro l hl
    have h3 := (List.all_eq_true.mp h) l hl
    exact Option.isNone_iff_eq_none.mp h3
  unfold process_compile normalizeContent
  simpa using processLines_clean run (rustLines content) [] h2

mutual

theorem draftsRunItem (run : Runner) :
    ∀ (i j : BookItem), runItem run i = some j → draftsItem j = draftsItem i
  | .chapter name content path subs, j, h => by
    simp only [runItem] at h
    cases hcon : (if isDraftChapter path then some content
        else process_compile run content) with
    | none => simp [hcon] at h
    | some c2 =>
      cases hsub : runItems run subs with
      | none => simp [hcon, hsub] at h
      | some subs2 =>
        simp only [hcon, hsub, Option.some.injEq] at h
        subst h
        have hsubs : draftsItems subs2 = draftsItems subs :=
          draftsRunItems run subs subs2 hsub
        cases path with
        | none =>
          have hc2 : content = c2 := by simpa [isDraftChapter] using hcon
          simp [draftsItem, isDraftChapter, hsubs, hc2]
        | some p =>
          simp [draftsItem, isDraftChapter, hsubs]
  | .separator, j, h => by
    simp only [runItem, Option.some.injEq] at h
    subst h
    rfl
  | .partTitle t, j, h => by
    simp only [runItem, Option.some.injEq] at h
    subst h
    rfl

theorem draftsRunItems (run : Runner) :
    ∀ (li lj : List BookItem), runItems run li = some lj →
      draftsItems lj = draftsItems li
  | [], lj, h => by
    simp only [runItems, Option.some.injEq] at h
    subst h
    rfl
  | i :: rest, lj, h => by
    simp only [runItems] at h
    cases hi : runItem run i with
    | none => simp [hi] at h
    | some i2 =>
      cases hr : runItems run rest with
      | none => simp [hi, hr] at h
      | some rest2 =>
        simp only [hi, hr, Option.some.injEq] at h
        subst h
        have h1 := draftsRunItem run i i2 hi
        have h2 := draftsRunItems run rest rest2 hr
        simp [draftsItems, h1, h2]

end

mutual

theorem cleanRunItem (run : Runner) :
    ∀ i : BookItem, cleanItem i = true → runItem run i = some (normItem i)
  | .chapter name content path subs, h => by
    simp only [cleanItem, Bool.and_eq_true] at h
    have hsubs : runItems run subs = some (normItems subs) :=
      cleanRunItems run subs h.2
    cases path with
    | none => simp [runItem, isDraftChapter, hsubs, normItem]
    | some p =>
      have hpc : process_compile run content = some (normalizeContent content) :=
        process_compile_clean run content h.1
      simp [runItem, isDraftChapter, hsubs, normItem, hpc]
  | .separator, _ => by simp [runItem, normItem]
  | .partTitle t, _ => by simp [runItem, normItem]

theorem cleanRunItems (run : Runner) :
    ∀ li : List BookItem, cleanItems li = true →
      runItems run li = some (normItems li)
  | [], _ => by simp [runItems, normItems]
  | i :: rest, h => by
    simp only [cleanItems, Bool.and_eq_true] at h
    have h1 := cleanRunItem run i h.1
    have h2 := cleanRunItems run rest h.2
    simp [runItems, normItems, h1, h2]

end

/-- A draft chapter (no source path) whose content is a marker line. -/
def draftMarkerItem : BookItem := BookItem.chapter ("d".data) markerDemoLine none []

/-- A non-draft chapter with plain one-line content. -/
def plainItem : BookItem :=
  BookItem.chapter ("c".data) ("hi".data) (some ("p".data)) []

/-- A two-item input book: a draft chapter holding a marker, then a plain
non-draft chapter. -/
def bookIn : Book := ⟨[draftMarkerItem, plainItem]⟩

/-- The expected output of a pass over `bookIn` under a runner that cannot
spawn anything: the draft untouched, the plain chapter normalized. -/
def bookOut : Book :=
  ⟨[draftMarkerItem, BookItem.chapter ("c".data) ("hi\n".data) (some ("p".data)) []]⟩

/-- A marker-free tree: a non-draft chapter with a CRLF line ending, a
separator, and a draft chapter. -/
def cleanTreeW : List BookItem :=
  [BookItem.chapter ("a".data) ("hello\r\nworld".data) (some ("p".data)) [],
   BookItem.separator,
   BookItem.chapter ("d".data) ("draft".data) none []]

/-- C6: a full-tree pass leaves the content of every draft chapter exactly
unchanged, for every document tree, every runner, and every content value:
the multiset (here: document-ordered list) of draft-chapter contents of the
output tree equals that of the input tree. -/
theorem c6_drafts_unchanged (run : Runner) (b b2 : Book)
    (h : runBook run b = some b2) :
    draftsItems b2.sections = draftsItems b.sections := by
  unfold runBook at h
  cases hx : runItems run b.sections with
  | none => simp [hx] at h
  | some secs =>
    simp only [hx, Option.some.injEq] at h
    subst h
    exact draftsRunItems run b.sections secs hx

/-- Witness for C6: the draft chapter holds a marker line and the runner can
spawn nothing, yet the pass succeeds and the draft content is untouched. -/
theorem c6_witness :
    draftsItems bookOut.sections = draftsItems bookIn.sections :=
  c6_drafts_unchanged runNone bookIn bookOut (by rfl)

/-- C7: on a document tree in which no chapter contains any marker line,
the whole pipeline (no-argument mode) succeeds and yields the input tree
with the content of every non-draft chapter line-ending normalized and
everything else identical. -/
theorem c7_marker_free_normalizes (run : Runner) (items : List BookItem)
    (h : cleanItems items = true) :
    mainFn run [] (some ⟨items⟩) = ⟨0, some ⟨normItems items⟩⟩ := by
  have hx := cleanRunItems run items h
  simp [mainFn, runBook, hx]

/-- Witness for C7 on a small marker-free tree with a CRLF line ending. -/
theorem c7_witness :
    mainFn runNone [] (some ⟨cleanTreeW⟩) = ⟨0, some ⟨normItems cleanTreeW⟩⟩ :=
  c7_marker_free_normalizes runNone cleanTreeW (by rfl)

/-- C8: when the external command for a step cannot be spawned at all, the
failure is fatal: `compile` aborts (`none`), the whole rewrite of the
chapter aborts, the tree walk over any book containing that chapter aborts,
and the run exits with the panic status emitting no output document. -/
theorem c8_spawn_failure_fatal (run : Runner)
    (content line step a : List Char) (lsPre lsPost : List (List Char))
    (hsplit : rustLines content = lsPre ++ line :: lsPost)
    (hline : extract_step_name line = some step)
    (hrun : run (stagePath step) = none)
    (ha : processLines run lsPre [] = some a) :
    compile run step = none ∧
    process_compile run content = none ∧
    ∀ (name p : List Char) (subs rest : List BookItem),
      runItems run ((BookItem.chapter name content (some p) subs) :: rest) = none ∧
      mainFn run []
          (some (Book.mk ((BookItem.chapter name content (some p) subs) :: rest)))
        = ⟨101, none⟩ := by
  have hc : compile run step = none := by simp [compile, hrun]
  have hp : process_compile run content = none := by
    unfold process_compile
    rw [hsplit, processLines_append, ha, Option.some_bind]
    simp only [processLines, hline, hc]
  refine ⟨hc, hp, ?_⟩
  intro name p subs rest
  have hi : runItem run (BookItem.chapter name content (some p) subs) = none := by
    simp [runItem, isDraftChapter, hp]
  constructor
  · simp [runItems, hi]
  · simp [mainFn, runBook, runItems, hi]

/-- Witness for C8: a runner that can spawn nothing on a chapter whose only
line is the `demo` marker. -/
theorem c8_witness :
    compile runNone ("demo".data) = none ∧
    process_compile runNone markerDemoLine = none := by
  have h := c8_spawn_failure_fatal runNone markerDemoLine markerDemoLine
    ("demo".data) [] [] [] (by decide) (by decide) (by rfl) (by rfl)
  exact ⟨h.1, h.2.1⟩

/-- C9: invoking the program with first argument `supports` (optionally
followed by further arguments, ignored) exits with status 0 and emits
nothing, regardless of the standard-input content. -/
theorem c9_supports_mode (run : Runner) (rest : List (List Char))
    (stdinDoc : Option Book) :
    mainFn run (("supports".data) :: rest) stdinDoc = ⟨0, none⟩ := by
  simp [mainFn]

/-- C10: the Marker Scanner accepts an empty step name — both with nothing
and with only whitespace between the colon and the closing braces — and the
Step Runner is then invoked with the bare base directory `rust_stages/` as
the working-directory path. -/
theorem c10_empty_step_name :
    extract_step_name ("\x7b\x7b#compile_output:\x7d\x7d".data) = some [] ∧
    extract_step_name ("\x7b\x7b#compile_output:   \x7d\x7d".data) = some [] ∧
    stagePath [] = "rust_stages/".data ∧
    ∀ run : Runner, compile run [] =
      (run ("rust_stages/".data)).map
        (fun out => fenceText (if out.success then out.stdout else out.stderr)) := by
  refine ⟨by decide, by decide, by decide, ?_⟩
  intro run
  have hsp : stagePath ([] : List Char) = "rust_stages/".data := by decide
  unfold compile
  rw [hsp]
  cases hx : run ("rust_stages/".data) with
  | none => simp
  | some out => cases hs : out.success <;> simp [hs]

end MdbookCompileOutput
